import Mathlib

/-!
Verification of the todo-vibe task-management page.

The development shallowly embeds the view-state logic shared by the two
variants of the page (the purely local variant and the persisted variant):
the Todo data model, the derived-view engine (filtering, sorting,
aggregates, per-category statistics) and the mutation layer
(create / toggle / delete / full-row edit / single-field edit), following
the source code statement by statement.

Modelling conventions:
- JS strings are Lean String; the empty dueDate string means "no due date".
- crypto.randomUUID() is an explicit parameter of the create operation.
- new Date(s).getTime() on the ISO yyyy-mm-dd strings produced by the date
  input is modelled by dateValue, the number formed by the digits of the
  string, which realises the same (monotone) ordering on such strings.
- localeCompare is modelled by code-point string comparison; no claim
  depends on the collation of the category / name sort keys.
- Array.prototype.sort is modelled by a stable insertion sort, matching the
  stability ECMAScript 2019 requires of engines.
- JS double arithmetic in the completion percentage is modelled exactly
  over the rationals; Math.round is the round half toward positive
  infinity function.
- The Record built by categoryStats is modelled as an association list;
  indexing a key that is absent (which in JS yields undefined and makes
  the subsequent increment throw) is a None result propagated through
  the whole computation.
-/

namespace TodoVibe

/-! ### Domain model -/

inductive Priority where
  | low
  | medium
  | high
deriving DecidableEq

structure Todo where
  id : String
  text : String
  category : String
  priority : Priority
  dueDate : String
  completed : Bool
deriving DecidableEq

structure CategoryOption where
  value : String
  label : String
deriving DecidableEq, Inhabited

def categoryOptions : List CategoryOption :=
  [⟨"업무", "업무"⟩, ⟨"개인", "개인"⟩, ⟨"학습", "학습"⟩, ⟨"기타", "기타"⟩]

def categoryValues : List String := categoryOptions.map (·.value)

inductive FilterType where
  | all
  | completed
  | pending
deriving DecidableEq

inductive SortType where
  | date
  | priority
  | category
  | name
deriving DecidableEq

inductive EditField where
  | category
  | priority
  | dueDate
deriving DecidableEq

structure FieldEditing where
  id : String
  field : EditField
deriving DecidableEq

structure Form where
  text : String
  category : String
  priority : Priority
  dueDate : String
deriving DecidableEq

/-- JS String.prototype.trim: strip leading and trailing whitespace. Stated
    over the character list of the string so that it evaluates by kernel
    reduction (core String.trim works on byte positions and does not). -/
def jsTrim (s : String) : String :=
  String.mk (((s.toList.dropWhile Char.isWhitespace).reverse.dropWhile
    Char.isWhitespace).reverse)

/-- The form value installed by resetForm (and used as the initial form). -/
def emptyForm : Form :=
  { text := "", category := categoryOptions.headI.value, priority := .medium, dueDate := "" }

/-- UI state of the local (non-persisted) variant of the page. -/
structure LocalState where
  todos : List Todo
  form : Form
  editingId : Option String
  editForm : Form
  filterSel : FilterType
  categoryFilter : String
  sortBy : SortType
  fieldEditing : Option FieldEditing
  fieldEditValue : String
deriving DecidableEq

/-! ### Derived-view engine (shared by both variants) -/

def completedCount (todos : List Todo) : Nat :=
  (todos.filter (·.completed)).length

def pendingCount (todos : List Todo) : Nat :=
  (todos.filter (fun t => !t.completed)).length

/-- progressPercentage: Math.round((completedCount / todos.length) * 100),
    0 for the empty collection. -/
def progressPercentage (todos : List Todo) : ℤ :=
  if todos.length = 0 then 0
  else round (((completedCount todos : ℚ) / (todos.length : ℚ)) * 100)

def priorityOrder (p : Priority) : ℤ :=
  match p with
  | .high => 3
  | .medium => 2
  | .low => 1

/-- a.localeCompare(b), modelled with code-point comparison. -/
def strCmp (a b : String) : ℤ :=
  match compare a b with
  | .lt => -1
  | .eq => 0
  | .gt => 1

/-- new Date(s).getTime() restricted to the yyyy-mm-dd strings of the date
    input: the number formed by the digits of the string is a monotone
    injective image of the epoch time on those strings. -/
def dateValue (s : String) : ℤ :=
  ((s.toList.filter Char.isDigit).foldl (fun n c => n * 10 + (c.toNat - 48)) 0 : Nat)

/-- The sort comparator of filteredAndSortedTodos, one case per sortBy key. -/
def cmpTodo (sb : SortType) (a b : Todo) : ℤ :=
  match sb with
  | .priority => priorityOrder b.priority - priorityOrder a.priority
  | .category => strCmp a.category b.category
  | .name => strCmp a.text b.text
  | .date =>
    if a.dueDate = "" ∧ b.dueDate = "" then 0
    else if a.dueDate = "" then 1
    else if b.dueDate = "" then -1
    else dateValue a.dueDate - dateValue b.dueDate

/-- The non-strict order induced by the comparator: a may precede b. -/
def sortLe (sb : SortType) (a b : Todo) : Prop :=
  cmpTodo sb a b ≤ 0

instance (sb : SortType) : DecidableRel (sortLe sb) :=
  fun a b => inferInstanceAs (Decidable (cmpTodo sb a b ≤ 0))

/-- Array.prototype.sort with the comparator, as the stable insertion sort. -/
def sortTodos (sb : SortType) (l : List Todo) : List Todo :=
  l.insertionSort (sortLe sb)

/-- The two filtering passes of filteredAndSortedTodos: status, then category. -/
def filterTodos (f : FilterType) (cf : String) (todos : List Todo) : List Todo :=
  let filtered := todos
  let filtered :=
    match f with
    | .completed => filtered.filter (·.completed)
    | .pending => filtered.filter (fun t => !t.completed)
    | .all => filtered
  if cf = "all" then filtered else filtered.filter (fun t => t.category == cf)

/-- filteredAndSortedTodos: copy the collection, filter by status and
    category, then sort the copy in place and return it. -/
def filteredAndSortedTodos (todos : List Todo) (f : FilterType) (cf : String)
    (sb : SortType) : List Todo :=
  sortTodos sb (filterTodos f cf todos)

/-- The useMemo evaluation over the whole UI state: it reads the state and
    returns the derived list; the in-place sort acts on the fresh copy
    [...todos], so no state cell is written. -/
def filteredAndSortedOf (s : LocalState) : List Todo × LocalState :=
  (filteredAndSortedTodos s.todos s.filterSel s.categoryFilter s.sortBy, s)

/-! ### Per-category statistics -/

structure CatStat where
  total : Nat
  completed : Nat
deriving DecidableEq

/-- The Record initialised with a zero entry for each enumerated category. -/
def initStats : List (String × CatStat) :=
  categoryOptions.map (fun c => (c.value, ⟨0, 0⟩))

def lookupStat (k : String) : List (String × CatStat) → Option CatStat
  | [] => none
  | (k2, v) :: rest => if k2 = k then some v else lookupStat k rest

def updateStat (k : String) (g : CatStat → CatStat) :
    List (String × CatStat) → List (String × CatStat)
  | [] => []
  | (k2, v) :: rest =>
    if k2 = k then (k2, g v) :: rest else (k2, v) :: updateStat k g rest

/-- One loop iteration: stats[todo.category].total++ and, when completed,
    stats[todo.category].completed++; indexing an absent key fails. -/
def bumpStat (t : Todo) (st : List (String × CatStat)) :
    Option (List (String × CatStat)) :=
  match lookupStat t.category st with
  | none => none
  | some _ =>
    some (updateStat t.category
      (fun v => ⟨v.total + 1, if t.completed then v.completed + 1 else v.completed⟩) st)

/-- categoryStats: fold the collection over the initialised record;
    the result is None when some task's category is not enumerated. -/
def categoryStats (todos : List Todo) : Option (List (String × CatStat)) :=
  todos.foldl (fun acc t => acc.bind (bumpStat t)) (some initStats)

def sumTotals (st : List (String × CatStat)) : Nat :=
  (st.map (fun e => e.2.total)).sum

def sumCompleted (st : List (String × CatStat)) : Nat :=
  (st.map (fun e => e.2.completed)).sum

/-! ### Mutation layer, local variant -/

/-- addTodo of the local variant; newId stands for crypto.randomUUID(). -/
def addTodo (newId : String) (s : LocalState) : LocalState :=
  if jsTrim s.form.text = "" then s
  else
    let newTodo : Todo :=
      { id := newId
        text := jsTrim s.form.text
        category := s.form.category
        priority := s.form.priority
        dueDate := s.form.dueDate
        completed := false }
    { s with todos := s.todos ++ [newTodo], form := emptyForm }

/-- The per-task body of toggleTodo: flip completed on the matching id. -/
def toggleFn (id : String) (t : Todo) : Todo :=
  if t.id = id then { t with completed := !t.completed } else t

/-- toggleTodo of the local variant: flip completed on the matching id. -/
def toggleTodo (id : String) (s : LocalState) : LocalState :=
  { s with todos := s.todos.map (toggleFn id) }

/-- deleteTodo: drop the matching task and, when the full-row edit session
    is keyed by this id, clear it. The single-field edit session is not
    touched by this operation. -/
def deleteTodo (id : String) (s : LocalState) : LocalState :=
  { s with
    todos := s.todos.filter (fun t => t.id != id)
    editingId := if s.editingId = some id then none else s.editingId }

/-- saveEditing of the local variant: commit the trimmed draft over the
    matching task when the draft text is non-empty, and close the session. -/
def saveEditing (id : String) (s : LocalState) : LocalState :=
  if jsTrim s.editForm.text = "" then s
  else
    { s with
      todos := s.todos.map (fun t =>
        if t.id = id then
          { t with
            text := jsTrim s.editForm.text
            category := s.editForm.category
            priority := s.editForm.priority
            dueDate := s.editForm.dueDate }
        else t)
      editingId := none }

/-- saveFieldEditing of the local variant reuses the same per-field update
    as the persisted one; the unchecked TS cast of the draft string to
    Priority is modelled by parsing the three enumerated literals (the UI
    only ever stores those in fieldEditValue). -/
def priorityOfString (v : String) : Priority :=
  if v = "low" then .low else if v = "high" then .high else .medium

/-- The computed dynamic-key update [field]: value on one task. -/
def applyField (f : EditField) (v : String) (t : Todo) : Todo :=
  match f with
  | .category => { t with category := v }
  | .priority => { t with priority := priorityOfString v }
  | .dueDate => { t with dueDate := v }

/-- saveFieldEditing of the local variant: commit the single drafted field
    of the session task and close the session. -/
def saveFieldEditing (s : LocalState) : LocalState :=
  match s.fieldEditing with
  | none => s
  | some fe =>
    { s with
      todos := s.todos.map (fun t =>
        if t.id = fe.id then applyField fe.field s.fieldEditValue t else t)
      fieldEditing := none
      fieldEditValue := "" }

/-! ### Persisted variant -/

inductive FeedbackType where
  | error
  | success
deriving DecidableEq

structure Feedback where
  type : FeedbackType
  message : String
deriving DecidableEq

/-- A row of the remote todos table; due_date is nullable. -/
structure Row where
  id : String
  text : String
  category : String
  priority : Priority
  due_date : Option String
  completed : Bool
deriving DecidableEq

def mapRowToTodo (r : Row) : Todo :=
  { id := r.id
    text := r.text
    category := r.category
    priority := r.priority
    dueDate := r.due_date.getD ""
    completed := r.completed }

/-- UI state of the persisted variant; session records whether a Supabase
    session is present, isSubmitting is the in-flight guard of addTodo. -/
structure PersistState where
  todos : List Todo
  form : Form
  editingId : Option String
  editForm : Form
  fieldEditing : Option FieldEditing
  fieldEditValue : String
  feedback : Option Feedback
  session : Bool
  isSubmitting : Bool
deriving DecidableEq

def msgLoginRequired : String := "로그인 후 할일을 추가할 수 있습니다."
def msgAddFailed : String := "할일을 추가하지 못했습니다. 잠시 후 다시 시도해주세요."
def msgToggleFailed : String := "상태를 변경하지 못했습니다. 잠시 후 다시 시도해주세요."
def msgDeleteFailed : String := "할일을 삭제하지 못했습니다. 잠시 후 다시 시도해주세요."
def msgSaveFailed : String := "할일을 수정하지 못했습니다. 잠시 후 다시 시도해주세요."
def msgFieldFailed : String := "필드를 수정하지 못했습니다. 잠시 후 다시 시도해주세요."

/-- reportError: log and surface an error feedback message. -/
def reportError (m : String) (s : PersistState) : PersistState :=
  { s with feedback := some ⟨.error, m⟩ }

/-- addTodo of the persisted variant. The remote insert is modelled by its
    outcome res: the created row on success, the store error otherwise. -/
def addTodoP (res : Except String Row) (s : PersistState) : PersistState :=
  if s.session then
    if jsTrim s.form.text = "" ∨ s.isSubmitting then s
    else
      match res with
      | .error _ => { reportError msgAddFailed s with isSubmitting := false }
      | .ok row =>
        { s with
          todos := mapRowToTodo row :: s.todos
          form := emptyForm
          feedback := none
          isSubmitting := false }
  else reportError msgLoginRequired s

/-- toggleTodo of the persisted variant; completed is the current value the
    UI passes, the update writes its negation. -/
def toggleTodoP (res : Option String) (id : String) (completed : Bool)
    (s : PersistState) : PersistState :=
  if s.session then
    match res with
    | some _ => reportError msgToggleFailed s
    | none =>
      { s with
        todos := s.todos.map (fun t =>
          if t.id = id then { t with completed := !completed } else t) }
  else s

/-- deleteTodo of the persisted variant. -/
def deleteTodoP (res : Option String) (id : String) (s : PersistState) :
    PersistState :=
  if s.session then
    match res with
    | some _ => reportError msgDeleteFailed s
    | none =>
      { s with
        todos := s.todos.filter (fun t => t.id != id)
        editingId := if s.editingId = some id then none else s.editingId }
  else s

/-- saveEditing of the persisted variant: the local mirror stores the
    trimmed draft text and the draft fields (dueDate keeps the draft
    string, the null-normalisation only affects the network payload). -/
def saveEditingP (res : Option String) (id : String) (s : PersistState) :
    PersistState :=
  if s.session then
    if jsTrim s.editForm.text = "" then s
    else
      match res with
      | some _ => reportError msgSaveFailed s
      | none =>
        { s with
          todos := s.todos.map (fun t =>
            if t.id = id then
              { t with
                text := jsTrim s.editForm.text
                category := s.editForm.category
                priority := s.editForm.priority
                dueDate := s.editForm.dueDate }
            else t)
          editingId := none }
  else s

/-- saveFieldEditing of the persisted variant. -/
def saveFieldEditingP (res : Option String) (s : PersistState) : PersistState :=
  match s.fieldEditing with
  | none => s
  | some fe =>
    if s.session then
      match res with
      | some _ => reportError msgFieldFailed s
      | none =>
        { s with
          todos := s.todos.map (fun t =>
            if t.id = fe.id then applyField fe.field s.fieldEditValue t else t)
          fieldEditing := none
          fieldEditValue := "" }
    else s

/-! ### Concrete sample data (used by witnesses and counterexamples) -/

def tMilk : Todo :=
  { id := "1", text := "Buy milk", category := "개인", priority := .low,
    dueDate := "", completed := false }

def tReport : Todo :=
  { id := "2", text := "Finish report", category := "업무", priority := .high,
    dueDate := "2024-01-10", completed := false }

def tReview : Todo :=
  { id := "3", text := "Review PR", category := "업무", priority := .medium,
    dueDate := "2024-01-05", completed := true }

def tStudy : Todo :=
  { id := "4", text := "Read book", category := "학습", priority := .medium,
    dueDate := "", completed := false }

/-- A task whose category lies outside the enumerated set. -/
def tBad : Todo :=
  { id := "9", text := "stray", category := "없음", priority := .low,
    dueDate := "", completed := false }

def baseLocal : LocalState :=
  { todos := [tMilk, tReport]
    form := { text := " hello ", category := "업무", priority := .medium,
              dueDate := "2024-02-01" }
    editingId := some "1"
    editForm := { text := " new ", category := "개인", priority := .high,
                  dueDate := "" }
    filterSel := .all
    categoryFilter := "all"
    sortBy := .date
    fieldEditing := some ⟨"1", .category⟩
    fieldEditValue := "개인" }

def emptyLocal : LocalState :=
  { todos := []
    form := emptyForm
    editingId := none
    editForm := emptyForm
    filterSel := .all
    categoryFilter := "all"
    sortBy := .date
    fieldEditing := none
    fieldEditValue := "" }

/-! ### Claim C1 (delete) -/

/-- C1 counterexample: in baseLocal the single-field edit session is keyed
    by id 1; deleting task 1 removes it from the collection yet leaves the
    single-field edit session in place, so the delete operation does not
    cancel the single-field edit session as the claim states. -/
theorem deleteTodo_cex :
    (deleteTodo "1" baseLocal).todos = [tReport] ∧
    (deleteTodo "1" baseLocal).fieldEditing = some ⟨"1", EditField.category⟩ ∧
    (deleteTodo "1" baseLocal).fieldEditing ≠ none := by
  refine ⟨by decide, by decide, by decide⟩

/-- C1 (amended): deleting a task removes exactly the task whose id matches
    and no other, and cancels the full-row edit session when it is keyed by
    that id; the single-field edit session (and every other piece of state)
    is left unchanged, even when keyed by the deleted id. -/
theorem deleteTodo_spec (id : String) (s : LocalState) :
    (deleteTodo id s).todos = s.todos.filter (fun t => t.id != id) ∧
    (∀ t : Todo, t ∈ (deleteTodo id s).todos ↔ t ∈ s.todos ∧ t.id ≠ id) ∧
    (deleteTodo id s).editingId
      = (if s.editingId = some id then none else s.editingId) ∧
    (deleteTodo id s).fieldEditing = s.fieldEditing ∧
    (deleteTodo id s).fieldEditValue = s.fieldEditValue ∧
    (deleteTodo id s).form = s.form ∧
    (deleteTodo id s).editForm = s.editForm := by
  refine ⟨rfl, ?_, rfl, rfl, rfl, rfl, rfl⟩
  intro t
  simp [deleteTodo, List.mem_filter]

/-! ### Claim C2 (create) -/

/-- C2: when the form text trims to a non-empty string, addTodo appends to
    the collection exactly one new task carrying the trimmed text, the
    submitted category, priority and due date, and completed false; when
    the text trims to empty (empty or whitespace-only input) the whole
    state, in particular the collection, is unchanged. -/
theorem addTodo_spec (newId : String) (s : LocalState) :
    (jsTrim s.form.text ≠ "" →
      (addTodo newId s).todos
        = s.todos ++ [{ id := newId
                        text := jsTrim s.form.text
                        category := s.form.category
                        priority := s.form.priority
                        dueDate := s.form.dueDate
                        completed := false }]) ∧
    (jsTrim s.form.text = "" → addTodo newId s = s) := by
  constructor
  · intro h
    simp [addTodo, h]
  · intro h
    simp [addTodo, h]

/-- Witness for C2 at concrete inputs: a form whose text trims to hello
    appends the corresponding task, and a whitespace-only form is a no-op. -/
theorem addTodo_spec_witness :
    (jsTrim baseLocal.form.text ≠ "" ∧
      (addTodo "7" baseLocal).todos
        = baseLocal.todos ++ [{ id := "7"
                                text := jsTrim baseLocal.form.text
                                category := baseLocal.form.category
                                priority := baseLocal.form.priority
                                dueDate := baseLocal.form.dueDate
                                completed := false }]) ∧
    (jsTrim emptyLocal.form.text = "" ∧ addTodo "7" emptyLocal = emptyLocal) :=
  ⟨⟨by decide, (addTodo_spec "7" baseLocal).1 (by decide)⟩,
   ⟨by decide, (addTodo_spec "7" emptyLocal).2 (by decide)⟩⟩

/-! ### Claim C4 (toggle) -/

lemma toggleFn_toggleFn (id : String) (t : Todo) :
    toggleFn id (toggleFn id t) = t := by
  obtain ⟨i, tx, c, p, d, comp⟩ := t
  by_cases h : i = id
  · subst h
    simp [toggleFn, Bool.not_not]
  · simp [toggleFn, h]

lemma map_toggleFn_twice (id : String) (l : List Todo) :
    (l.map (toggleFn id)).map (toggleFn id) = l := by
  rw [List.map_map]
  have h : ∀ a ∈ l, (toggleFn id ∘ toggleFn id) a = a :=
    fun a _ => toggleFn_toggleFn id a
  rw [List.map_congr_left h]
  simp

lemma map_toggleFn_absent (id : String) (l : List Todo)
    (h : ∀ t ∈ l, t.id ≠ id) : l.map (toggleFn id) = l := by
  have h2 : ∀ a ∈ l, toggleFn id a = a := fun a ha => by simp [toggleFn, h a ha]
  rw [List.map_congr_left h2]
  simp

/-- C4: toggling the same id twice restores the whole state, in particular
    the matching task's completed flag and every other field of every task;
    toggling an id absent from the collection changes nothing. -/
theorem toggleTodo_spec :
    (∀ (id : String) (s : LocalState), toggleTodo id (toggleTodo id s) = s) ∧
    (∀ (id : String) (s : LocalState),
      (∀ t ∈ s.todos, t.id ≠ id) → toggleTodo id s = s) := by
  constructor
  · intro id s
    obtain ⟨td, fo, ei, ef, fs, cf, sb, fe, fv⟩ := s
    simp only [toggleTodo]
    rw [map_toggleFn_twice]
  · intro id s h
    obtain ⟨td, fo, ei, ef, fs, cf, sb, fe, fv⟩ := s
    simp only [toggleTodo]
    rw [map_toggleFn_absent id td h]

/-- Witness for C4: toggling id 1 twice restores baseLocal, and toggling
    the absent id z leaves baseLocal untouched. -/
theorem toggleTodo_spec_witness :
    toggleTodo "1" (toggleTodo "1" baseLocal) = baseLocal ∧
    ((∀ t ∈ baseLocal.todos, t.id ≠ "z") ∧ toggleTodo "z" baseLocal = baseLocal) :=
  ⟨toggleTodo_spec.1 "1" baseLocal,
   ⟨by decide, toggleTodo_spec.2 "z" baseLocal (by decide)⟩⟩

/-! ### Claim C7 (filtering) -/

/-- The status predicate as the specification words it: all matches
    everything, completed matches completed tasks, pending the others. -/
def statusPass (f : FilterType) (t : Todo) : Bool :=
  match f with
  | .all => true
  | .completed => t.completed
  | .pending => !t.completed

/-- The category predicate as the specification words it: all matches
    everything, otherwise the task category must equal the selector. -/
def categoryPass (cf : String) (t : Todo) : Bool :=
  cf == "all" || t.category == cf

/-- The sequential two-pass filtering of the source equals the single
    filter by the conjunction of the two predicates. -/
lemma filterTodos_eq_filter (f : FilterType) (cf : String) (todos : List Todo) :
    filterTodos f cf todos
      = todos.filter (fun t => statusPass f t && categoryPass cf t) := by
  by_cases h : cf = "all"
  · cases f <;> simp [filterTodos, statusPass, categoryPass, h]
  · have hb : (cf == "all") = false := by simp [h]
    cases f <;>
      simp only [filterTodos, statusPass, categoryPass, if_neg h, hb,
        Bool.false_or, Bool.true_and, List.filter_filter] <;>
      exact List.filter_congr (fun a _ => by
        cases ha : a.completed <;> cases hc : a.category == cf <;> simp [ha, hc])

/-- C7: a task passes the combined filter iff it satisfies both the status
    predicate and the category predicate (with selector all matching
    everything), the two passes being equivalent to one filter by the
    conjunction; and with the category selector at all, the completed and
    pending status filters give disjoint lists whose concatenation is a
    permutation of the unfiltered collection. -/
theorem filtering_spec :
    (∀ (f : FilterType) (cf : String) (todos : List Todo),
      filterTodos f cf todos
        = todos.filter (fun t => statusPass f t && categoryPass cf t)) ∧
    (∀ todos : List Todo,
      (∀ t : Todo, t ∈ filterTodos .completed "all" todos →
        t ∉ filterTodos .pending "all" todos) ∧
      (filterTodos .completed "all" todos
        ++ filterTodos .pending "all" todos).Perm todos) := by
  refine ⟨filterTodos_eq_filter, ?_⟩
  intro todos
  constructor
  · intro t ht hp
    have h1 : t.completed = true := by
      simp [filterTodos] at ht
      exact ht.2
    have h2 : t.completed = false := by
      simp [filterTodos] at hp
      exact hp.2
    rw [h1] at h2
    cases h2
  · show (todos.filter (fun t => t.completed)
      ++ todos.filter (fun t => !t.completed)).Perm todos
    exact List.filter_append_perm (fun t => t.completed) todos

/-- Witness for C7: a concrete completed task passes the completed filter
    of the sample collection and is excluded from the pending filter. -/
theorem filtering_spec_witness :
    tReview ∈ filterTodos .completed "all" [tMilk, tReport, tReview, tStudy] ∧
    tReview ∉ filterTodos .pending "all" [tMilk, tReport, tReview, tStudy] :=
  ⟨by decide,
   (filtering_spec.2 [tMilk, tReport, tReview, tStudy]).1 tReview (by decide)⟩

/-! ### Claims C5 and C6 (sorting) -/

instance : IsTotal Todo (sortLe .date) := by
  constructor
  intro a b
  simp only [sortLe, cmpTodo]
  by_cases ha : a.dueDate = "" <;> by_cases hb : b.dueDate = "" <;>
    simp [ha, hb] <;> omega

instance : IsTrans Todo (sortLe .date) := by
  constructor
  intro a b c hab hbc
  simp only [sortLe, cmpTodo] at hab hbc ⊢
  by_cases ha : a.dueDate = "" <;> by_cases hb : b.dueDate = "" <;>
    by_cases hc : c.dueDate = "" <;>
    simp [ha, hb, hc] at hab hbc ⊢ <;> omega

instance : IsTotal Todo (sortLe .priority) := by
  constructor
  intro a b
  simp only [sortLe, cmpTodo]
  omega

instance : IsTrans Todo (sortLe .priority) := by
  constructor
  intro a b c hab hbc
  simp only [sortLe, cmpTodo] at hab hbc ⊢
  omega

/-- Inserting an element not satisfying p does not disturb the p-filtered
    part of the list. -/
lemma filter_orderedInsert_neg {α : Type} (r : α → α → Prop) [DecidableRel r]
    (p : α → Bool) (x : α) (hx : p x = false) :
    ∀ l : List α, (List.orderedInsert r x l).filter p = l.filter p
  | [] => by simp [List.orderedInsert, hx]
  | b :: l => by
    by_cases h : r x b
    · simp [List.orderedInsert, h, hx]
    · simp only [List.orderedInsert, if_neg h, List.filter_cons]
      cases hb : p b <;>
        simp [filter_orderedInsert_neg r p x hx l]

/-- Inserting an element satisfying p that may precede every p-element of
    the list places it in front of the whole p-filtered part. -/
lemma filter_orderedInsert_pos {α : Type} (r : α → α → Prop) [DecidableRel r]
    (p : α → Bool) (x : α) (hx : p x = true) :
    ∀ l : List α, (∀ b ∈ l, p b = true → r x b) →
      (List.orderedInsert r x l).filter p = x :: l.filter p
  | [], _ => by simp [List.orderedInsert, hx]
  | b :: l, h => by
    by_cases hrb : r x b
    · simp [List.orderedInsert, hrb, hx]
    · have hpb : p b = false := by
        cases hb : p b
        · rfl
        · exact absurd (h b (by simp) hb) hrb
      simp only [List.orderedInsert, if_neg hrb, List.filter_cons, hpb]
      simp [hpb,
        filter_orderedInsert_pos r p x hx l
          (fun b2 hb2 hpb2 => h b2 (by simp [hb2]) hpb2)]

/-- Stability of the insertion sort on an r-equivalence class: when all
    p-elements may pairwise precede each other, sorting does not reorder
    them relative to each other. -/
lemma filter_insertionSort {α : Type} (r : α → α → Prop) [DecidableRel r]
    (p : α → Bool) (hpp : ∀ a b, p a = true → p b = true → r a b) :
    ∀ l : List α, (List.insertionSort r l).filter p = l.filter p
  | [] => by simp [List.insertionSort]
  | x :: l => by
    cases hx : p x with
    | true =>
      rw [List.insertionSort,
        filter_orderedInsert_pos r p x hx _ (fun b _ hb => hpp x b hx hb),
        filter_insertionSort r p hpp l]
      simp [List.filter_cons, hx]
    | false =>
      rw [List.insertionSort, filter_orderedInsert_neg r p x hx,
        filter_insertionSort r p hpp l]
      simp [List.filter_cons, hx]

/-- C5: with sort key date, the derived view never places a task without a
    due date before a task with one, orders the dated tasks by non-
    decreasing due date, and keeps the due-date-less tasks in their input
    relative order (they compare equal and the sort is stable): their
    subsequence equals the one of the filtered input, itself an ordered
    sublist of the source collection. -/
theorem date_sort_spec (todos : List Todo) (f : FilterType) (cf : String) :
    (filteredAndSortedTodos todos f cf .date).Pairwise (fun a b =>
      (a.dueDate = "" → b.dueDate = "") ∧
      (a.dueDate ≠ "" → b.dueDate ≠ "" →
        dateValue a.dueDate ≤ dateValue b.dueDate)) ∧
    (filteredAndSortedTodos todos f cf .date).filter (fun t => t.dueDate == "")
      = (filterTodos f cf todos).filter (fun t => t.dueDate == "") ∧
    List.Sublist
      ((filteredAndSortedTodos todos f cf .date).filter (fun t => t.dueDate == ""))
      todos := by
  have hstable :
      (filteredAndSortedTodos todos f cf .date).filter (fun t => t.dueDate == "")
        = (filterTodos f cf todos).filter (fun t => t.dueDate == "") := by
    have hpp : ∀ a b : Todo, (a.dueDate == "") = true → (b.dueDate == "") = true →
        sortLe .date a b := by
      intro a b ha hb
      simp only [beq_iff_eq] at ha hb
      simp [sortLe, cmpTodo, ha, hb]
    exact filter_insertionSort (sortLe .date) (fun t => t.dueDate == "") hpp
      (filterTodos f cf todos)
  refine ⟨?_, hstable, ?_⟩
  · have hs : (filteredAndSortedTodos todos f cf .date).Pairwise (sortLe .date) :=
      List.sorted_insertionSort (sortLe .date) (filterTodos f cf todos)
    refine hs.imp ?_
    intro a b hab
    simp only [sortLe, cmpTodo] at hab
    constructor
    · intro ha
      by_cases hb : b.dueDate = ""
      · exact hb
      · simp [ha, hb] at hab
    · intro ha hb
      simp [ha, hb] at hab
      omega
  · rw [hstable, filterTodos_eq_filter, List.filter_filter]
    exact List.filter_sublist todos

lemma priorityOrder_rank {p q : Priority}
    (h : priorityOrder q ≤ priorityOrder p) :
    (q = .high → p = .high) ∧ (p = .low → q = .low) := by
  cases p <;> cases q <;> simp [priorityOrder] at h ⊢

/-- C6: with sort key priority, the derived view is ordered by
    non-increasing rank high = 3, medium = 2, low = 1; in particular every
    high task precedes every medium task, which precedes every low task,
    whatever the input order. -/
theorem priority_sort_spec (todos : List Todo) (f : FilterType) (cf : String) :
    (filteredAndSortedTodos todos f cf .priority).Pairwise (fun a b =>
      priorityOrder b.priority ≤ priorityOrder a.priority ∧
      (b.priority = .high → a.priority = .high) ∧
      (a.priority = .low → b.priority = .low)) := by
  have hs : (filteredAndSortedTodos todos f cf .priority).Pairwise
      (sortLe .priority) :=
    List.sorted_insertionSort (sortLe .priority) (filterTodos f cf todos)
  refine hs.imp ?_
  intro a b hab
  simp only [sortLe, cmpTodo] at hab
  have hle : priorityOrder b.priority ≤ priorityOrder a.priority := by omega
  exact ⟨hle, priorityOrder_rank hle⟩

/-! ### Claim C8 (completion percentage) -/

def fourTodos : List Todo := [tMilk, tReport, tReview, tStudy]

/-- C8: the completion percentage is 0 on the empty collection and
    round(completed / total * 100) otherwise; on any collection of 4 tasks
    with exactly 1 completed it is 25. -/
theorem progress_spec (todos : List Todo) :
    (todos.length = 0 → progressPercentage todos = 0) ∧
    (todos.length ≠ 0 → progressPercentage todos
      = round (((completedCount todos : ℚ) / (todos.length : ℚ)) * 100)) ∧
    (todos.length = 4 → completedCount todos = 1 →
      progressPercentage todos = 25) := by
  refine ⟨?_, ?_, ?_⟩
  · intro h
    simp [progressPercentage, h]
  · intro h
    simp [progressPercentage, h]
  · intro h4 h1
    simp only [progressPercentage, h4, h1]
    norm_num [round_eq]

/-- Witness for C8: the empty collection has percentage 0, and the four
    sample tasks with exactly one completed have percentage 25. -/
theorem progress_spec_witness :
    (([] : List Todo).length = 0 ∧ progressPercentage [] = 0) ∧
    (fourTodos.length = 4 ∧ completedCount fourTodos = 1 ∧
      progressPercentage fourTodos = 25) :=
  ⟨⟨rfl, (progress_spec []).1 rfl⟩,
   ⟨rfl, by decide, (progress_spec fourTodos).2.2 rfl (by decide)⟩⟩

/-! ### Claim C9 (view purity) -/

/-- C9: evaluating the derived view returns the state unchanged (the sort
    operates on the copy spread from the collection, never on the state
    cell), the result is exactly the sort applied to the output of the
    filter phase, the result is a permutation of the filtered collection,
    and every task shown comes from the source collection. -/
theorem derived_view_spec (s : LocalState) :
    (filteredAndSortedOf s).2 = s ∧
    (filteredAndSortedOf s).1
      = sortTodos s.sortBy (filterTodos s.filterSel s.categoryFilter s.todos) ∧
    ((filteredAndSortedOf s).1).Perm
      (filterTodos s.filterSel s.categoryFilter s.todos) ∧
    (∀ t ∈ (filteredAndSortedOf s).1, t ∈ s.todos) := by
  refine ⟨rfl, rfl, List.perm_insertionSort _ _, ?_⟩
  intro t ht
  have ht2 : t ∈ (filterTodos s.filterSel s.categoryFilter s.todos).insertionSort
      (sortLe s.sortBy) := ht
  rw [List.mem_insertionSort, filterTodos_eq_filter] at ht2
  exact (List.mem_filter.mp ht2).1

/-- Witness for C9: on the concrete state a task of the derived view is
    indeed a task of the source collection. -/
theorem derived_view_spec_witness :
    tReport ∈ (filteredAndSortedOf baseLocal).1 ∧ tReport ∈ baseLocal.todos :=
  ⟨by decide, (derived_view_spec baseLocal).2.2.2 tReport (by decide)⟩

/-! ### Claim C10 (per-category statistics) -/

lemma lookupStat_updateStat (k c : String) (g : CatStat → CatStat) :
    ∀ st, (lookupStat c (updateStat k g st)).isSome = (lookupStat c st).isSome
  | [] => rfl
  | (k2, v) :: rest => by
    by_cases h1 : k2 = k
    · simp only [updateStat, if_pos h1, lookupStat]
      by_cases h2 : k2 = c <;> simp [h2]
    · simp only [updateStat, if_neg h1, lookupStat]
      by_cases h2 : k2 = c <;> simp [h2, lookupStat_updateStat k c g rest]

lemma sumTotals_updateStat (k : String) (g : CatStat → CatStat) :
    ∀ st v, lookupStat k st = some v →
      sumTotals (updateStat k g st) + v.total = sumTotals st + (g v).total
  | [], v => by
    intro h
    simp [lookupStat] at h
  | (k2, w) :: rest, v => by
    intro h
    by_cases hk : k2 = k
    · simp only [lookupStat, if_pos hk] at h
      cases h
      simp [updateStat, hk, sumTotals]
      omega
    · simp only [lookupStat, if_neg hk] at h
      have hrec := sumTotals_updateStat k g rest v h
      simp only [updateStat, if_neg hk, sumTotals, List.map_cons,
        List.sum_cons] at hrec ⊢
      omega

lemma sumCompleted_updateStat (k : String) (g : CatStat → CatStat) :
    ∀ st v, lookupStat k st = some v →
      sumCompleted (updateStat k g st) + v.completed
        = sumCompleted st + (g v).completed
  | [], v => by
    intro h
    simp [lookupStat] at h
  | (k2, w) :: rest, v => by
    intro h
    by_cases hk : k2 = k
    · simp only [lookupStat, if_pos hk] at h
      cases h
      simp [updateStat, hk, sumCompleted]
      omega
    · simp only [lookupStat, if_neg hk] at h
      have hrec := sumCompleted_updateStat k g rest v h
      simp only [updateStat, if_neg hk, sumCompleted, List.map_cons,
        List.sum_cons] at hrec ⊢
      omega

/-- The effect of one loop iteration of categoryStats on the two sums and
    on the set of present keys. -/
lemma bumpStat_sums (t : Todo) (st st2 : List (String × CatStat))
    (h : bumpStat t st = some st2) :
    sumTotals st2 = sumTotals st + 1 ∧
    sumCompleted st2 = sumCompleted st + (if t.completed then 1 else 0) ∧
    ∀ c, (lookupStat c st2).isSome = (lookupStat c st).isSome := by
  unfold bumpStat at h
  cases hl : lookupStat t.category st with
  | none =>
    rw [hl] at h
    cases h
  | some v =>
    rw [hl] at h
    simp only [Option.some.injEq] at h
    subst h
    refine ⟨?_, ?_, ?_⟩
    · have := sumTotals_updateStat t.category
        (fun v => ⟨v.total + 1, if t.completed then v.completed + 1 else v.completed⟩)
        st v hl
      simp at this
      omega
    · have hsum := sumCompleted_updateStat t.category
        (fun v => ⟨v.total + 1, if t.completed then v.completed + 1 else v.completed⟩)
        st v hl
      cases ht : t.completed <;> simp [ht] at hsum ⊢ <;> omega
    · intro c
      exact lookupStat_updateStat t.category c _ st

/-- The invariant carried through the fold of categoryStats: with every
    task category enumerated and every enumerated category present in the
    accumulator, the fold succeeds and adds the length and the completed
    count of the processed tasks to the two sums. -/
lemma categoryStats_fold (todos : List Todo) :
    ∀ st, (∀ t ∈ todos, t.category ∈ categoryValues) →
      (∀ c ∈ categoryValues, (lookupStat c st).isSome) →
      ∃ st2, todos.foldl (fun acc t => acc.bind (bumpStat t)) (some st) = some st2 ∧
        sumTotals st2 = sumTotals st + todos.length ∧
        sumCompleted st2 = sumCompleted st + completedCount todos ∧
        (∀ c ∈ categoryValues, (lookupStat c st2).isSome) := by
  induction todos with
  | nil =>
    intro st _ hinv
    exact ⟨st, rfl, by simp, by simp [completedCount], hinv⟩
  | cons t ts ih =>
    intro st hmem hinv
    have hsome : (lookupStat t.category st).isSome :=
      hinv t.category (hmem t (by simp))
    cases hb : bumpStat t st with
    | none =>
      exfalso
      unfold bumpStat at hb
      cases hl : lookupStat t.category st with
      | none =>
        rw [hl] at hsome
        cases hsome
      | some v =>
        rw [hl] at hb
        cases hb
    | some st1 =>
      obtain ⟨h1, h2, h3⟩ := bumpStat_sums t st st1 hb
      have hinv1 : ∀ c ∈ categoryValues, (lookupStat c st1).isSome :=
        fun c hc => by rw [h3 c]; exact hinv c hc
      obtain ⟨st2, hfold, hs1, hs2, hinv2⟩ :=
        ih st1 (fun t2 ht2 => hmem t2 (by simp [ht2])) hinv1
      refine ⟨st2, ?_, ?_, ?_, hinv2⟩
      · rw [List.foldl_cons]
        show ts.foldl (fun acc t => acc.bind (bumpStat t)) ((some st).bind (bumpStat t))
          = some st2
        rw [Option.some_bind, hb]
        exact hfold
      · rw [hs1, h1]
        simp
        omega
      · rw [hs2, h2]
        cases ht : t.completed <;>
          simp [completedCount, List.filter_cons, ht] <;> omega

/-- C10: the per-category statistics are well defined exactly under the
    precondition that every task category belongs to the enumerated set;
    under it the per-category totals sum to the collection size and the
    per-category completed counts to the overall completed count, while a
    collection holding a task with a category outside the set makes the
    computation hit a missing record and fail. -/
theorem categoryStats_spec :
    (∀ todos : List Todo, (∀ t ∈ todos, t.category ∈ categoryValues) →
      ∃ st, categoryStats todos = some st ∧
        sumTotals st = todos.length ∧
        sumCompleted st = completedCount todos) ∧
    categoryStats [tBad] = none := by
  constructor
  · intro todos hmem
    obtain ⟨st2, hfold, h1, h2, _⟩ :=
      categoryStats_fold todos initStats hmem (by decide)
    refine ⟨st2, hfold, ?_, ?_⟩
    · rw [h1]
      have h0 : sumTotals initStats = 0 := rfl
      omega
    · rw [h2]
      have h0 : sumCompleted initStats = 0 := rfl
      omega
  · decide

/-- Witness for C10: the four sample tasks all carry enumerated categories,
    and the statistics fold succeeds with the stated sums. -/
theorem categoryStats_spec_witness :
    (∀ t ∈ fourTodos, t.category ∈ categoryValues) ∧
    ∃ st, categoryStats fourTodos = some st ∧
      sumTotals st = fourTodos.length ∧
      sumCompleted st = completedCount fourTodos :=
  ⟨by decide, categoryStats_spec.1 fourTodos (by decide)⟩

/-! ### Claim C3 (persisted variant: no local update on remote error) -/

def sampleRow : Row :=
  { id := "5", text := "hello", category := "업무", priority := .medium,
    due_date := none, completed := false }

def basePersist : PersistState :=
  { todos := [tMilk, tReport]
    form := { text := " hello ", category := "업무", priority := .medium,
              dueDate := "2024-02-01" }
    editingId := some "1"
    editForm := { text := " new ", category := "개인", priority := .high,
                  dueDate := "" }
    fieldEditing := some ⟨"1", .category⟩
    fieldEditValue := "개인"
    feedback := none
    session := true
    isSubmitting := false }

/-- C3: in the persisted variant, whenever a mutation actually issues a
    remote write (session present and, for create and full-row save, the
    validation guards passed), a remote error leaves the local task
    collection exactly as it was and sets the categorized error feedback
    message, while only a successful remote write installs the local
    update mirroring it. -/
theorem persisted_mutation_spec :
    (∀ (s : PersistState) (e : String) (row : Row),
      s.session = true → jsTrim s.form.text ≠ "" → s.isSubmitting = false →
        (addTodoP (.error e) s).todos = s.todos ∧
        (addTodoP (.error e) s).feedback = some ⟨.error, msgAddFailed⟩ ∧
        (addTodoP (.ok row) s).todos = mapRowToTodo row :: s.todos) ∧
    (∀ (s : PersistState) (e id : String) (c : Bool),
      s.session = true →
        (toggleTodoP (some e) id c s).todos = s.todos ∧
        (toggleTodoP (some e) id c s).feedback = some ⟨.error, msgToggleFailed⟩ ∧
        (toggleTodoP none id c s).todos = s.todos.map (fun t =>
          if t.id = id then { t with completed := !c } else t)) ∧
    (∀ (s : PersistState) (e id : String),
      s.session = true →
        (deleteTodoP (some e) id s).todos = s.todos ∧
        (deleteTodoP (some e) id s).feedback = some ⟨.error, msgDeleteFailed⟩ ∧
        (deleteTodoP none id s).todos = s.todos.filter (fun t => t.id != id)) ∧
    (∀ (s : PersistState) (e id : String),
      s.session = true → jsTrim s.editForm.text ≠ "" →
        (saveEditingP (some e) id s).todos = s.todos ∧
        (saveEditingP (some e) id s).feedback = some ⟨.error, msgSaveFailed⟩ ∧
        (saveEditingP none id s).todos = s.todos.map (fun t =>
          if t.id = id then
            { t with
              text := jsTrim s.editForm.text
              category := s.editForm.category
              priority := s.editForm.priority
              dueDate := s.editForm.dueDate }
          else t)) ∧
    (∀ (s : PersistState) (e : String) (fe : FieldEditing),
      s.session = true → s.fieldEditing = some fe →
        (saveFieldEditingP (some e) s).todos = s.todos ∧
        (saveFieldEditingP (some e) s).feedback = some ⟨.error, msgFieldFailed⟩ ∧
        (saveFieldEditingP none s).todos = s.todos.map (fun t =>
          if t.id = fe.id then applyField fe.field s.fieldEditValue t else t)) := by
  refine ⟨?_, ?_, ?_, ?_, ?_⟩
  · intro s e row hs ht hsub
    refine ⟨?_, ?_, ?_⟩ <;>
      simp [addTodoP, reportError, hs, ht, hsub]
  · intro s e id c hs
    refine ⟨?_, ?_, ?_⟩ <;> simp [toggleTodoP, reportError, hs]
  · intro s e id hs
    refine ⟨?_, ?_, ?_⟩ <;> simp [deleteTodoP, reportError, hs]
  · intro s e id hs ht
    refine ⟨?_, ?_, ?_⟩ <;> simp [saveEditingP, reportError, hs, ht]
  · intro s e fe hs hfe
    refine ⟨?_, ?_, ?_⟩ <;> simp [saveFieldEditingP, reportError, hs, hfe]

/-- Witness for C3: on the concrete authenticated state every one of the
    five mutations keeps the collection intact when the remote write
    fails. -/
theorem persisted_mutation_spec_witness :
    (addTodoP (.error "boom") basePersist).todos = basePersist.todos ∧
    (toggleTodoP (some "boom") "1" false basePersist).todos = basePersist.todos ∧
    (deleteTodoP (some "boom") "1" basePersist).todos = basePersist.todos ∧
    (saveEditingP (some "boom") "1" basePersist).todos = basePersist.todos ∧
    (saveFieldEditingP (some "boom") basePersist).todos = basePersist.todos :=
  ⟨(persisted_mutation_spec.1 basePersist "boom" sampleRow rfl (by decide) rfl).1,
   (persisted_mutation_spec.2.1 basePersist "boom" "1" false rfl).1,
   (persisted_mutation_spec.2.2.1 basePersist "boom" "1" rfl).1,
   (persisted_mutation_spec.2.2.2.1 basePersist "boom" "1" rfl (by decide)).1,
   (persisted_mutation_spec.2.2.2.2 basePersist "boom" ⟨"1", .category⟩ rfl rfl).1⟩

end TodoVibe
